import Mathlib

/-!
Shallow embedding of `src/analysis_hdfc.py`, a linear pipeline that extracts
HDFC bank-statement tables from a PDF, normalizes the rows, resolves a header,
cleans numeric / date / narration fields and resets the index.

The PDF library (`pdfplumber`) is treated as the producer of the raw rows: a
raw cell is `Option String` (`none` for a missing/None cell).  The dataframe
library (`pandas`) operations actually used by the script are embedded
explicitly: ragged rows are padded with `none` to the table width, assigning a
list of column names of the wrong length is a length-mismatch error,
`str.replace` / `to_numeric` / `to_datetime` / `strftime` are modelled on the
value level.  Numeric values are modelled as exact rationals (`ℚ`);
`pd.to_datetime(·, dayfirst=True)` is modelled for slash-separated numeric
day/month/year strings, the format of HDFC statement dates.
-/

namespace HDFC

/-- A raw table cell as produced by `pdfplumber` / stored in a padded
`pandas` frame: `none` is Python `None`. -/
abbrev Cell := Option String

/-- The ASCII whitespace characters stripped by Python `str.strip()`. -/
def isPySpace (c : Char) : Bool :=
  c = ' ' || c = '\t' || c = '\n' || c = '\r' || c = '\x0b' || c = '\x0c'

/-- Python `s.strip()`: drop leading and trailing whitespace. -/
def pyStrip (s : String) : String :=
  ⟨((s.data.dropWhile isPySpace).reverse.dropWhile isPySpace).reverse⟩

/-- One raw row is normalized cell-by-cell:
`clean_row = [cell.strip() if cell else "" for cell in row]`
(`None` and `""` are both falsy in Python, so a missing cell becomes `""`). -/
def normalizeRow (row : List Cell) : List String :=
  row.map (fun c => match c with
    | some s => if s = "" then "" else pyStrip s
    | none => "")

/-- The row-collection loop: every raw row is normalized and appended to
`all_transactions` unless `len(clean_row) < 7`. -/
def normalizeRows (raw : List (List Cell)) : List (List String) :=
  (raw.map normalizeRow).filter (fun r => decide (7 ≤ r.length))

/-- The fixed header list assigned in the first branch of header resolution. -/
def headersList : List String :=
  ["Date", "Narration", "Chq./Ref.No.", "Value Date",
   "Withdrawal Amount", "Deposit Amount", "Closing Balance"]

/-- Is `pat` a prefix of `s` (on character lists)? -/
def startsWithList : List Char → List Char → Bool
  | [], _ => true
  | _ :: _, [] => false
  | p :: ps, c :: cs => p = c && startsWithList ps cs

/-- Does `s` contain `pat` as a contiguous substring? -/
def hasSubList (pat : List Char) : List Char → Bool
  | [] => startsWithList pat []
  | c :: cs => startsWithList pat (c :: cs) || hasSubList pat cs

/-- ASCII lowercase of one character (`str.lower()` on the ASCII range — the
only range the two header patterns live in). -/
def lowerChar (c : Char) : Char :=
  if 65 ≤ c.toNat ∧ c.toNat ≤ 90 then Char.ofNat (c.toNat + 32) else c

/-- Case-insensitive substring test: `Series.str.contains(pat, case=False)`
for a plain-text pattern. -/
def containsCI (s pat : String) : Bool :=
  hasSubList (pat.data.map lowerChar) (s.data.map lowerChar)

/-- `pandas` width of a list-of-lists frame: the maximum row length. -/
def width (rows : List (List String)) : ℕ :=
  rows.foldr (fun r acc => max r.length acc) 0

/-- Pad one row with `None` cells to the frame width, as
`pd.DataFrame(all_transactions)` does for ragged input. -/
def padRow (w : ℕ) (r : List String) : List Cell :=
  r.map some ++ List.replicate (w - r.length) none

/-- The header mask on one (padded) row:
`df[0].str.contains("Date", case=False, na=False)
 & df[1].str.contains("Narration", case=False, na=False)`;
a `None` cell contributes `False` (`na=False`). -/
def isHeaderRowC (r : List Cell) : Bool :=
  match r.getD 0 none, r.getD 1 none with
  | some a, some b => containsCI a "Date" && containsCI b "Narration"
  | _, _ => false

/-- Header resolution on the normalized rows.  The rows are padded to the
frame width; if any row matches the header mask the fixed 7-name header is
assigned — which in `pandas` raises `ValueError` (length mismatch) unless the
frame has exactly 7 columns — and all mask rows are dropped; otherwise the
first row becomes the header and only it is dropped. -/
def resolveHeader (rows : List (List String)) :
    Except String (List Cell × List (List Cell)) :=
  if (rows.map (padRow (width rows))).any isHeaderRowC then
    if width rows = 7 then
      .ok (headersList.map some,
        (rows.map (padRow (width rows))).filter (fun r => !(isHeaderRowC r)))
    else
      .error "Length mismatch"
  else
    match rows.map (padRow (width rows)) with
    | [] => .error "empty frame"
    | r0 :: rest => .ok (r0, rest)

/-! ### Numeric field cleaning -/

/-- `str.replace(",", "", regex=False)`: delete every comma. -/
def removeCommas (s : String) : String :=
  ⟨s.data.filter (fun c => !(c = ','))⟩

/-- A character kept by the regex replacement `[^\d.] → ""`. -/
def isNumChar (c : Char) : Bool := c.isDigit || c = '.'

/-- `str.replace(r"[^\d.]", "", regex=True)`: keep only digits and dots. -/
def filterNumChars (s : String) : String :=
  ⟨s.data.filter isNumChar⟩

/-- Numeric value of one decimal digit character. -/
def digitVal (c : Char) : ℕ := c.toNat - 48

/-- Value of a digit string, most significant first. -/
def digitsToNat (cs : List Char) : ℕ :=
  cs.foldl (fun a c => 10 * a + digitVal c) 0

/-- Split a character list at every dot. -/
def splitDots : List Char → List (List Char)
  | [] => [[]]
  | c :: rest =>
    let r := splitDots rest
    if c = '.' then [] :: r
    else
      match r with
      | [] => [[c]]
      | h :: t => (c :: h) :: t

/-- `pd.to_numeric(·, errors="coerce")` on the digit/dot strings this script
produces: at most one dot and at least one digit parse to an exact decimal
rational, anything else to `NaN` (`none`). -/
def parseDec (s : String) : Option ℚ :=
  match splitDots s.data with
  | [ds] =>
    if ds.all Char.isDigit && !ds.isEmpty then some (digitsToNat ds) else none
  | [ds, fs] =>
    if (ds ++ fs).all Char.isDigit && !(ds ++ fs).isEmpty then
      some ((digitsToNat ds : ℚ) + (digitsToNat fs : ℚ) / (10 : ℚ) ^ fs.length)
    else none
  | _ => none

/-- `astype(str)`: Python stringification of a possibly-`None` cell. -/
def cellToStr (c : Cell) : String :=
  match c with
  | some s => s
  | none => "None"

/-- The whole numeric-column pipeline on one string:
drop commas, drop non-`[\d.]` characters, `to_numeric(errors="coerce")`,
`fillna(0.0)`. -/
def cleanNumStr (s : String) : ℚ :=
  (parseDec (filterNumChars (removeCommas s))).getD 0

/-- Numeric cleaning of one cell (after `astype(str)`). -/
def cleanNumericCell (c : Cell) : ℚ :=
  cleanNumStr (cellToStr c)

/-! ### Date field cleaning -/

/-- A calendar date as held by the model date parser. -/
structure PDate where
  day : ℕ
  month : ℕ
  year : ℕ
deriving DecidableEq, Repr

/-- Gregorian leap year. -/
def isLeap (y : ℕ) : Bool :=
  (y % 4 = 0 && !(y % 100 = 0)) || y % 400 = 0

/-- Number of days in a month. -/
def daysInMonth (m y : ℕ) : ℕ :=
  if m = 2 then (if isLeap y then 29 else 28)
  else if m = 4 || m = 6 || m = 9 || m = 11 then 30
  else 31

/-- Day/month/year triple denotes a real calendar date. -/
def validDMY (d m y : ℕ) : Bool :=
  1 ≤ m && m ≤ 12 && 1 ≤ d && d ≤ daysInMonth m y

/-- Split a character list at every slash. -/
def splitSlashes : List Char → List (List Char)
  | [] => [[]]
  | c :: rest =>
    if c = '/' then [] :: splitSlashes rest
    else
      match splitSlashes rest with
      | [] => [[c]]
      | h :: t => (c :: h) :: t

/-- `pd.to_datetime(·, dayfirst=True, errors="coerce")` modelled on
slash-separated numeric dates (the HDFC statement format): three all-digit
fields, day and month of one or two digits, a four-digit year; the first
field is preferred as the day, and the fields are swapped when only the
month-first reading is a real date (`dayfirst` is a preference, not a
constraint); everything else is `NaT` (`none`). -/
def parseDate (s : String) : Option PDate :=
  match splitSlashes s.data with
  | [a, b, c] =>
    if a.all Char.isDigit && b.all Char.isDigit && c.all Char.isDigit &&
       !a.isEmpty && a.length ≤ 2 && !b.isEmpty && b.length ≤ 2 &&
       c.length = 4 then
      if validDMY (digitsToNat a) (digitsToNat b) (digitsToNat c) then
        some ⟨digitsToNat a, digitsToNat b, digitsToNat c⟩
      else if validDMY (digitsToNat b) (digitsToNat a) (digitsToNat c) then
        some ⟨digitsToNat b, digitsToNat a, digitsToNat c⟩
      else none
    else none
  | _ => none

/-- One decimal digit as a character. -/
def digitChar (k : ℕ) : Char :=
  match k with
  | 0 => '0' | 1 => '1' | 2 => '2' | 3 => '3' | 4 => '4'
  | 5 => '5' | 6 => '6' | 7 => '7' | 8 => '8' | 9 => '9'
  | _ => '0'

/-- Zero-padded two-digit rendering (`%d`, `%m`). -/
def pad2 (n : ℕ) : List Char := [digitChar (n / 10 % 10), digitChar (n % 10)]

/-- Zero-padded four-digit rendering (`%Y`). -/
def pad4 (n : ℕ) : List Char :=
  [digitChar (n / 1000 % 10), digitChar (n / 100 % 10),
   digitChar (n / 10 % 10), digitChar (n % 10)]

/-- `dt.strftime("%d/%m/%Y")` on one date. -/
def formatDate (d : PDate) : String :=
  ⟨pad2 d.day ++ '/' :: pad2 d.month ++ '/' :: pad4 d.year⟩

/-- Date cleaning of one cell: `to_datetime` then `strftime`; a `None` cell
or an unparseable string is `NaT` and stays missing (`strftime` of `NaT` is
`NaN`). -/
def cleanDateCell (c : Cell) : Option String :=
  match c with
  | none => none
  | some s => (parseDate s).map formatDate

/-! ### Narration cleaning and the cleaning dispatch -/

/-- `str.replace("\n", " ", regex=False)` for the single-character pattern:
a character-wise map. -/
def replaceNl (s : String) : String :=
  ⟨s.data.map (fun c => if c = '\n' then ' ' else c)⟩

/-- Narration cleaning of one cell: `astype(str)` then the replacement. -/
def cleanNarrationCell (c : Cell) : String :=
  replaceNl (cellToStr c)

/-- An output cell: a number (numeric columns), a text value, or a missing
value (`None` / `NaT` / `NaN`). -/
inductive OutCell where
  | num : ℚ → OutCell
  | text : String → OutCell
  | null : OutCell
deriving DecidableEq, Repr

/-- An untouched cell passes through value-unchanged. -/
def cellToOut (c : Cell) : OutCell :=
  match c with
  | some s => .text s
  | none => .null

/-- The names of the three numeric columns (`cols_to_clean`). -/
def numericCols : List String :=
  ["Withdrawal Amount", "Deposit Amount", "Closing Balance"]

/-- The names of the two date columns. -/
def dateCols : List String := ["Date", "Value Date"]

/-- Field cleaning of the cell under column name `n` (a column whose name is
in a group is transformed by that group's cleaner; every `if col in
df.columns` guard of the script is by column name). -/
def cleanCellAt (n : Cell) (c : Cell) : OutCell :=
  match n with
  | none => cellToOut c
  | some name =>
    if name ∈ numericCols then .num (cleanNumericCell c)
    else if name ∈ dateCols then
      match cleanDateCell c with
      | some s => .text s
      | none => .null
    else if name = "Narration" then .text (cleanNarrationCell c)
    else cellToOut c

/-- Clean one data row against the resolved column names. -/
def cleanRow (cols : List Cell) (row : List Cell) : List OutCell :=
  List.zipWith cleanCellAt cols row

/-- Field cleaning of the whole frame. -/
def cleanFields (cols : List Cell) (data : List (List Cell)) :
    List (List OutCell) :=
  data.map (cleanRow cols)

/-! ### The whole extraction function -/

/-- The final cleaned frame: column names, the reset index, cleaned rows. -/
structure DF where
  cols : List Cell
  index : List ℕ
  data : List (List OutCell)
deriving DecidableEq, Repr

/-- The message printed when no rows survive normalization. -/
def noDataMsg : String :=
  "Error: No data found. The PDF might be an image scan or have a different layout."

/-- Result of `extract_hdfc_statement`: the no-data early return (`None`
with the printed message), a raised exception, or a cleaned frame. -/
inductive ExtractResult where
  | noData : String → ExtractResult
  | err : String → ExtractResult
  | ok : DF → ExtractResult
deriving DecidableEq, Repr

/-- `extract_hdfc_statement` on the raw rows produced by the PDF reader
(page order, then table order, then row order): normalize, early-return on
empty, resolve the header, clean the fields, reset the index
(`reset_index(drop=True)` makes the index `0..n-1`). -/
def extract_hdfc_statement (raw : List (List Cell)) : ExtractResult :=
  let rows := normalizeRows raw
  if rows.isEmpty then .noData noDataMsg
  else
    match resolveHeader rows with
    | .error e => .err e
    | .ok (cols, dataRows) =>
      .ok ⟨cols, List.range dataRows.length, cleanFields cols dataRows⟩

/-- The `__main__` block writes the fixed output file exactly when the
extraction returned a frame (`df_result is not None` and no exception). -/
def mainOutputFile (r : ExtractResult) : Option String :=
  match r with
  | .ok _ => some "hdfc_cleaned_data.xlsx"
  | _ => none

/-! ### Small helper lemmas -/

theorem pyStrip_empty : pyStrip "" = "" := rfl

theorem normalizeRow_eq_map (row : List Cell) :
    normalizeRow row = row.map (fun c => pyStrip (c.getD "")) := by
  unfold normalizeRow
  refine List.map_congr_left ?_
  intro c _
  cases c with
  | none => rfl
  | some s =>
    by_cases hs : s = ""
    · simp [hs, pyStrip_empty]
    · simp [hs]

/-! ### C3: row normalization -/

/-- C3: every raw row is normalized cell-by-cell (strip, `None` → `""`); a
row survives into the normalized table exactly when it has at least 7 cells,
and the surviving rows keep their original order (the normalized table is a
sublist of the cell-normalized rows). -/
theorem claim3_row_normalization (raw : List (List Cell)) :
    (∀ r ∈ normalizeRows raw, 7 ≤ r.length) ∧
    normalizeRows raw =
      (raw.map normalizeRow).filter (fun r => decide (7 ≤ r.length)) ∧
    (normalizeRows raw).Sublist (raw.map normalizeRow) ∧
    (∀ row : List Cell, normalizeRow row =
      row.map (fun c => pyStrip (c.getD ""))) := by
  refine ⟨?_, rfl, List.filter_sublist _, normalizeRow_eq_map⟩
  intro r hr
  have h := (List.mem_filter.1 hr).2
  exact of_decide_eq_true h

/-- Witness for C3 at a concrete raw table: a one-cell row is dropped, a
7-cell row survives stripped, in order. -/
theorem claim3_witness :
    7 ≤ (["a", "b", "c", "d", "e", "f", "g"] : List String).length ∧
    normalizeRows
      [[some " a ", some "b", none, some "d", some "e", some "f", some "g"],
       [some "short"]] = [["a", "b", "", "d", "e", "f", "g"]] := by
  constructor
  · exact (claim3_row_normalization
      [[some " a ", some "b", none, some "d", some "e", some "f", some "g"]]).1
      ["a", "b", "", "d", "e", "f", "g"] (by decide)
  · decide

/-! ### C5: the no-data early return -/

/-- C5: when zero rows survive normalization the extraction returns the
absent result carrying the exact no-data message, and the entry point writes
no output file. -/
theorem claim5_no_data (raw : List (List Cell))
    (h : normalizeRows raw = []) :
    extract_hdfc_statement raw = .noData noDataMsg ∧
    mainOutputFile (extract_hdfc_statement raw) = none := by
  have : extract_hdfc_statement raw = .noData noDataMsg := by
    unfold extract_hdfc_statement
    simp [h]
  exact ⟨this, by simp [this, mainOutputFile]⟩

/-- Witness for C5: a PDF yielding no tables at all (no raw rows). -/
theorem claim5_witness :
    extract_hdfc_statement [] = .noData noDataMsg ∧
    mainOutputFile (extract_hdfc_statement []) = none :=
  claim5_no_data [] rfl

/-! ### C7: narration cleaning -/

/-- C7: the cleaned narration contains no newline; it has the same length as
the input and agrees with it character by character except that each newline
becomes exactly one space (so no other whitespace is merged or collapsed);
and no narration cell — including a missing one, stringified to `"None"` —
ever produces a newline. -/
theorem claim7_narration (s : String) :
    '\n' ∉ (replaceNl s).data ∧
    (replaceNl s).data.length = s.data.length ∧
    (∀ i (h1 : i < s.data.length) (h2 : i < (replaceNl s).data.length),
      (replaceNl s).data.get ⟨i, h2⟩ =
        if s.data.get ⟨i, h1⟩ = '\n' then ' ' else s.data.get ⟨i, h1⟩) ∧
    (∀ c : Cell, '\n' ∉ (cleanNarrationCell c).data) := by
  have hmap : ∀ (t : String), '\n' ∉ (replaceNl t).data := by
    intro t hmem
    unfold replaceNl at hmem
    simp only [List.mem_map] at hmem
    obtain ⟨a, _, ha⟩ := hmem
    by_cases h : a = '\n' <;> simp [h] at ha
  refine ⟨hmap s, by simp [replaceNl], ?_, ?_⟩
  · intro i h1 h2
    simp [replaceNl]
  · intro c
    exact hmap (cellToStr c)

/-- Witness for C7 on a concrete narration with a wrapped line and a double
space. -/
theorem claim7_witness :
    '\n' ∉ (replaceNl "Salary Credit\nABC  Corp").data ∧
    (replaceNl "Salary Credit\nABC  Corp").data.length =
      ("Salary Credit\nABC  Corp" : String).data.length ∧
    replaceNl "Salary Credit\nABC  Corp" = "Salary Credit ABC  Corp" := by
  have h := claim7_narration "Salary Credit\nABC  Corp"
  exact ⟨h.1, h.2.1, by decide⟩

/-! ### C8: numeric values are non-negative -/

theorem parseDec_nonneg (s : String) (q : ℚ) (h : parseDec s = some q) :
    0 ≤ q := by
  unfold parseDec at h
  rcases hs : splitDots s.data with _ | ⟨ds, _ | ⟨fs, _ | _⟩⟩ <;>
    rw [hs] at h <;> simp only at h
  · exact absurd h (by simp)
  · split at h
    · cases h
      positivity
    · cases h
  · split at h
    · cases h
      positivity
    · cases h
  · cases h

/-- C8: after cleaning, every numeric cell holds a value `≥ 0` (the digits
and dot that survive the character filter cannot encode a sign, and parse
failures become `0.0`). -/
theorem claim8_nonneg (c : Cell) : 0 ≤ cleanNumericCell c := by
  unfold cleanNumericCell cleanNumStr
  cases h : parseDec (filterNumChars (removeCommas (cellToStr c))) with
  | none => simp
  | some q => simpa using parseDec_nonneg _ q h

/-! ### C2 / C4: header resolution -/

/-- A 9-cell row carrying the header signature: branch 1 fires, and
assigning the 7-name header to a 9-column frame is a length-mismatch error. -/
def wideHeaderTable : List (List String) :=
  [["Tx Date", "Narration", "c3", "c4", "c5", "c6", "c7", "c8", "c9"]]

/-- An 8-cell row carrying the header signature, for the C4 counterexample. -/
def wideHeaderTable8 : List (List String) :=
  [["Date", "Narration", "Chq./Ref.No.", "Value Date",
    "Withdrawal Amount", "Deposit Amount", "Closing Balance", "extra"]]

/-- Counterexample to C2 as stated: a normalized table (all rows have at
least 7 cells) in which a row matches the Date+Narration signature, yet the
fixed 7-column names are not assigned and no row is removed — header
resolution instead raises a length-mismatch error, because the frame is 9
columns wide. -/
theorem claim2_counterexample :
    ((wideHeaderTable.map (padRow (width wideHeaderTable))).any isHeaderRowC
      = true) ∧
    (wideHeaderTable.all (fun r => decide (7 ≤ r.length)) = true) ∧
    resolveHeader wideHeaderTable = .error "Length mismatch" := by
  refine ⟨by decide, by decide, ?_⟩
  rfl

/-- C2 (amended): branch 1 is preferred — if some padded row matches the
case-insensitive Date+Narration signature and the frame is exactly 7 columns
wide, the fixed 7-name header is assigned and exactly the matching rows are
removed; with a matching row but a wider frame, header assignment is a
length-mismatch error; with no matching row, the first row becomes the
header and only it is dropped. -/
theorem claim2_header_resolution (rows : List (List String)) :
    ((rows.map (padRow (width rows))).any isHeaderRowC = true →
      width rows = 7 →
      resolveHeader rows = .ok (headersList.map some,
        (rows.map (padRow (width rows))).filter
          (fun r => !(isHeaderRowC r)))) ∧
    ((rows.map (padRow (width rows))).any isHeaderRowC = true →
      width rows ≠ 7 →
      resolveHeader rows = .error "Length mismatch") ∧
    ((rows.map (padRow (width rows))).any isHeaderRowC = false →
      rows ≠ [] →
      resolveHeader rows = .ok
        ((rows.map (padRow (width rows))).headD [],
         (rows.map (padRow (width rows))).tail)) := by
  refine ⟨?_, ?_, ?_⟩
  · intro hany h7
    unfold resolveHeader
    rw [if_pos hany, if_pos h7]
  · intro hany h7
    unfold resolveHeader
    rw [if_pos hany, if_neg h7]
  · intro hany hne
    unfold resolveHeader
    have hne' : ¬((rows.map (padRow (width rows))).any isHeaderRowC = true) := by
      rw [hany]
      simp
    rw [if_neg hne']
    cases rows with
    | nil => exact absurd rfl hne
    | cons r rs => rfl

/-- Witness for C2 at a 7-column statement table containing two repeated
page headers: both are removed, the data row is kept. -/
theorem claim2_witness :
    resolveHeader
      [["Date", "Narration", "a", "b", "c", "d", "e"],
       ["01/04/2024", "Salary", "r", "01/04/2024", "", "5,000.00", "10,000.00"],
       ["date", "NARRATION", "a", "b", "c", "d", "e"]] =
    .ok (headersList.map some,
      [[some "01/04/2024", some "Salary", some "r", some "01/04/2024",
        some "", some "5,000.00", some "10,000.00"]]) := by
  have h := (claim2_header_resolution
    [["Date", "Narration", "a", "b", "c", "d", "e"],
     ["01/04/2024", "Salary", "r", "01/04/2024", "", "5,000.00", "10,000.00"],
     ["date", "NARRATION", "a", "b", "c", "d", "e"]]).1 (by decide) (by decide)
  rw [h]
  rfl

/-- Counterexample to C4 as stated: a normalized table all of whose rows
have at least 7 cells, on which header resolution does not complete — the
8th cell makes branch 1 raise a length-mismatch error. -/
theorem claim4_counterexample :
    (wideHeaderTable8.all (fun r => decide (7 ≤ r.length)) = true) ∧
    resolveHeader wideHeaderTable8 = .error "Length mismatch" := by
  exact ⟨by decide, rfl⟩

/-- C4 (amended): for a nonempty normalized table, header resolution
completes without an error exactly when no padded row matches the header
signature (fallback branch, any width) or the frame is exactly 7 columns
wide; a signature row in a wider frame raises a length-mismatch error. -/
theorem claim4_header_error_iff (rows : List (List String))
    (hne : rows ≠ []) :
    (∃ cols dataRows, resolveHeader rows = .ok (cols, dataRows)) ↔
    ((rows.map (padRow (width rows))).any isHeaderRowC = false ∨
      width rows = 7) := by
  have h := claim2_header_resolution rows
  constructor
  · rintro ⟨cols, dataRows, hok⟩
    by_cases hany : (rows.map (padRow (width rows))).any isHeaderRowC = true
    · by_cases h7 : width rows = 7
      · exact Or.inr h7
      · rw [h.2.1 hany h7] at hok
        cases hok
    · exact Or.inl (by simpa using hany)
  · rintro (hany | h7)
    · rw [h.2.2 hany hne]
      exact ⟨_, _, rfl⟩
    · by_cases hany : (rows.map (padRow (width rows))).any isHeaderRowC = true
      · rw [h.1 hany h7]
        exact ⟨_, _, rfl⟩
      · rw [h.2.2 (by simpa using hany) hne]
        exact ⟨_, _, rfl⟩

/-- Witness for C4 (amended) at a concrete 7-wide table with a signature
row, and at a concrete 8-wide table with no signature row. -/
theorem claim4_witness :
    (∃ cols dataRows, resolveHeader
      [["Date", "Narration", "a", "b", "c", "d", "e"]] = .ok (cols, dataRows)) ∧
    (∃ cols dataRows, resolveHeader
      [["h1", "h2", "h3", "h4", "h5", "h6", "h7", "h8"]] = .ok (cols, dataRows)) := by
  constructor
  · exact (claim4_header_error_iff
      [["Date", "Narration", "a", "b", "c", "d", "e"]] (by decide)).2
      (Or.inr (by decide))
  · exact (claim4_header_error_iff
      [["h1", "h2", "h3", "h4", "h5", "h6", "h7", "h8"]] (by decide)).2
      (Or.inl (by decide))

/-! ### C1: numeric cleaning vs. the spec's regex -/

/-- The `\d*$` tail of the regex: only digits up to the end. -/
def matchesFrac : List Char → Bool
  | [] => true
  | c :: cs => c.isDigit && matchesFrac cs

/-- The regex `^[\d,]*\.?\d*$` of the spec's testable property, as a Boolean
matcher on character lists: digits/commas, then an optional dot, then
digits (the first character that is not a digit or a comma must be the dot
or the end of the string). -/
def matchesAmountRe : List Char → Bool
  | [] => true
  | c :: cs =>
    if c.isDigit || c = ',' then matchesAmountRe cs
    else if c = '.' then matchesFrac cs
    else false

theorem filter_isNumChar_of_matchesFrac (cs : List Char)
    (h : matchesFrac cs = true) : cs.filter isNumChar = cs := by
  induction cs with
  | nil => rfl
  | cons c cs ih =>
    unfold matchesFrac at h
    have hcd : c.isDigit = true := (Bool.and_eq_true _ _ |>.mp h).1
    have hrest := (Bool.and_eq_true _ _ |>.mp h).2
    simp [List.filter_cons, isNumChar, hcd, ih hrest]

/-- On a comma-free string matched by the regex, the `[^\d.]` filter keeps
every character. -/
theorem filter_isNumChar_of_matches (cs : List Char)
    (hm : matchesAmountRe cs = true) (hc : ',' ∉ cs) :
    cs.filter isNumChar = cs := by
  induction cs with
  | nil => rfl
  | cons c cs ih =>
    unfold matchesAmountRe at hm
    by_cases hp : (c.isDigit || c = ',') = true
    · rw [if_pos hp] at hm
      have hcd : c.isDigit = true := by
        rcases Bool.or_eq_true _ _ |>.mp hp with h | h
        · exact h
        · exact absurd (of_decide_eq_true h)
            (fun hcc => hc (hcc ▸ List.mem_cons_self c cs))
      have hc' : ',' ∉ cs := fun h => hc (List.mem_cons_of_mem c h)
      simp [List.filter_cons, isNumChar, hcd, ih hm hc']
    · rw [if_neg hp] at hm
      by_cases hdot : c = '.'
      · rw [if_pos hdot] at hm
        subst hdot
        simp [List.filter_cons, isNumChar, filter_isNumChar_of_matchesFrac cs hm]
      · rw [if_neg hdot] at hm
        cases hm

theorem comma_not_mem_removeCommas (s : String) :
    ',' ∉ (removeCommas s).data := by
  intro h
  unfold removeCommas at h
  have := List.of_mem_filter (p := fun c => !(c = ',')) h
  simp at this

/-- C1 (amended): if, after removing commas, the cell matches
`^[\d,]*\.?\d*$`, the cleaned value is the decimal parse of that string
(`0.0` when nothing parses, i.e. the match holds no digit); for every other
cell, the characters outside `[\d.]` are first stripped and the remainder
parsed the same way — so such a cell is not forced to `0.0`. -/
theorem claim1_numeric_cleaning (s : String) :
    (matchesAmountRe (removeCommas s).data = true →
      cleanNumStr s = (parseDec (removeCommas s)).getD 0) ∧
    cleanNumStr s = (parseDec (filterNumChars (removeCommas s))).getD 0 := by
  refine ⟨?_, rfl⟩
  intro hm
  have hfix : filterNumChars (removeCommas s) = removeCommas s := by
    unfold filterNumChars
    rw [filter_isNumChar_of_matches _ hm (comma_not_mem_removeCommas s)]
  rw [show cleanNumStr s
      = (parseDec (filterNumChars (removeCommas s))).getD 0 from rfl, hfix]

/-- Counterexample to C1 as stated: the cell `"a1"` does not match the
regex after comma removal, so the claim demands a cleaned value of exactly
`0.0` — but the code strips the `a` and parses `1`. -/
theorem claim1_counterexample :
    matchesAmountRe (removeCommas "a1").data = false ∧
    cleanNumericCell (some "a1") = 1 ∧ (1 : ℚ) ≠ 0 := by
  refine ⟨by decide, ?_, by norm_num⟩
  show (parseDec (filterNumChars (removeCommas "a1"))).getD 0 = 1
  rw [show filterNumChars (removeCommas "a1") = "1" from rfl,
    show parseDec "1" = some ((1 : ℕ) : ℚ) from rfl]
  norm_num

/-- Witness for C1 (amended) on the spec's own example `"5,000.00"`. -/
theorem claim1_witness :
    matchesAmountRe (removeCommas "5,000.00").data = true ∧
    cleanNumStr "5,000.00" = (parseDec (removeCommas "5,000.00")).getD 0 := by
  have h := (claim1_numeric_cleaning "5,000.00").1 (by decide)
  exact ⟨by decide, h⟩

/-! ### C9: index reset and record preservation -/

/-- C9: whenever extraction returns a frame, its index is `0..n-1` for `n`
the number of rows left by header resolution: field cleaning (a map over the
rows) neither adds nor removes records, and `reset_index(drop=True)` makes
the index exactly the contiguous range. -/
theorem claim9_index_reset (raw : List (List Cell)) (cols : List Cell)
    (dataRows : List (List Cell)) (df : DF)
    (h1 : resolveHeader (normalizeRows raw) = .ok (cols, dataRows))
    (h2 : extract_hdfc_statement raw = .ok df) :
    df.index = List.range dataRows.length ∧
    df.data.length = dataRows.length ∧
    df.index = List.range df.data.length := by
  unfold extract_hdfc_statement at h2
  by_cases he : (normalizeRows raw).isEmpty
  · rw [if_pos he] at h2
    cases h2
  · rw [if_neg he, h1] at h2
    have h2' : ExtractResult.ok
        ⟨cols, List.range dataRows.length, cleanFields cols dataRows⟩ =
        ExtractResult.ok df := h2
    injection h2' with h3
    subst h3
    refine ⟨rfl, ?_, ?_⟩
    · simp [cleanFields]
    · simp [cleanFields]

/-- Witness for C9 at a two-row table (one header row, one data row). -/
theorem claim9_witness :
    (DF.mk (headersList.map some) (List.range 1)
      (cleanFields (headersList.map some)
        [[some "1", some "x", some "a", some "b", some "c", some "d",
          some "e"]])).index =
      List.range ([[some "1", some "x", some "a", some "b", some "c",
        some "d", some "e"]] : List (List Cell)).length := by
  have h := claim9_index_reset
    [[some "Date", some "Narration", some "a", some "b", some "c", some "d",
      some "e"],
     [some "1", some "x", some "a", some "b", some "c", some "d", some "e"]]
    (headersList.map some)
    [[some "1", some "x", some "a", some "b", some "c", some "d", some "e"]]
    (DF.mk (headersList.map some) (List.range 1)
      (cleanFields (headersList.map some)
        [[some "1", some "x", some "a", some "b", some "c", some "d",
          some "e"]]))
    rfl rfl
  exact h.1

/-! ### C10: the cleaner touches only the six named columns -/

theorem zipWith_get_some {α β γ : Type} (f : α → β → γ) :
    ∀ (as : List α) (bs : List β) (n : ℕ) (a : α) (b : β),
      as.get? n = some a → bs.get? n = some b →
      (List.zipWith f as bs).get? n = some (f a b) := by
  intro as
  induction as with
  | nil =>
    intro bs n a b h1 _
    simp at h1
  | cons x xs ih =>
    intro bs n a b h1 h2
    cases bs with
    | nil => simp at h2
    | cons y ys =>
      cases n with
      | zero =>
        simp at h1 h2
        subst h1
        subst h2
        rfl
      | succ n =>
        simpa using ih ys n a b (by simpa using h1) (by simpa using h2)

/-- C10: any column whose resolved name is not one of the six cleaned names
(so in particular `Chq./Ref.No.` and every extra positional column of the
fallback header, including padded `None` names) passes its cells to the
output unchanged: a string cell stays exactly that string, a missing cell
stays missing. -/
theorem claim10_frame_effect (cols : List Cell) (dataRows : List (List Cell))
    (j : ℕ) (n : Cell) (hcol : cols.get? j = some n)
    (hn : ∀ m, n = some m →
      m ∉ numericCols ∧ m ∉ dateCols ∧ m ≠ "Narration") :
    ∀ row ∈ dataRows,
      cleanRow cols row ∈ cleanFields cols dataRows ∧
      ∀ c, row.get? j = some c →
        (cleanRow cols row).get? j = some (cellToOut c) := by
  intro row hrow
  constructor
  · exact List.mem_map_of_mem (cleanRow cols) hrow
  · intro c hc
    have h := zipWith_get_some cleanCellAt cols row j n c hcol hc
    rw [cleanRow, h]
    congr 1
    cases n with
    | none => rfl
    | some m =>
      obtain ⟨h1, h2, h3⟩ := hn m rfl
      have hred : cleanCellAt (some m) c =
          (if m ∈ numericCols then OutCell.num (cleanNumericCell c)
           else if m ∈ dateCols then
             (match cleanDateCell c with
              | some s => OutCell.text s
              | none => OutCell.null)
           else if m = "Narration" then OutCell.text (cleanNarrationCell c)
           else cellToOut c) := rfl
      rw [hred, if_neg h1, if_neg h2, if_neg h3]

/-- Witness for C10: the reference-number cell of a concrete record reaches
the output byte-for-byte. -/
theorem claim10_witness :
    (cleanRow (headersList.map some)
      [some "01/04/2024", some "S", some "REF1", some "01/04/2024",
       some "", some "5,000.00", some "10,000.00"]).get? 2 =
      some (.text "REF1") := by
  have h := claim10_frame_effect (headersList.map some)
    [[some "01/04/2024", some "S", some "REF1", some "01/04/2024",
      some "", some "5,000.00", some "10,000.00"]] 2 (some "Chq./Ref.No.")
    rfl
    (by
      intro m hm
      injection hm with hmm
      subst hmm
      exact ⟨by decide, by decide, by decide⟩)
  exact (h _ (by simp)).2 (some "REF1") rfl

/-! ### C6: date cleaning round-trip -/

theorem digitVal_le_nine (c : Char) (h : c.isDigit = true) : digitVal c ≤ 9 := by
  simp [Char.isDigit] at h
  obtain ⟨h1, h2⟩ := h
  unfold digitVal
  have g1 : c.toNat ≤ 57 := h2
  omega

theorem foldl_digits_lt (cs : List Char) :
    ∀ a : ℕ, cs.all Char.isDigit = true →
      cs.foldl (fun x c => 10 * x + digitVal c) a < (a + 1) * 10 ^ cs.length := by
  induction cs with
  | nil =>
    intro a _
    simp
  | cons c cs ih =>
    intro a h
    simp only [List.all_cons, Bool.and_eq_true] at h
    have hv : digitVal c ≤ 9 := digitVal_le_nine c h.1
    have hrec := ih (10 * a + digitVal c) h.2
    have hstep : (10 * a + digitVal c + 1) * 10 ^ cs.length ≤
        (a + 1) * 10 ^ (cs.length + 1) := by
      rw [pow_succ]
      calc (10 * a + digitVal c + 1) * 10 ^ cs.length
          ≤ ((a + 1) * 10) * 10 ^ cs.length :=
            Nat.mul_le_mul_right _ (by omega)
        _ = (a + 1) * (10 ^ cs.length * 10) := by ring
    calc (c :: cs).foldl (fun x c => 10 * x + digitVal c) a
        = cs.foldl (fun x c => 10 * x + digitVal c) (10 * a + digitVal c) := rfl
      _ < (10 * a + digitVal c + 1) * 10 ^ cs.length := hrec
      _ ≤ (a + 1) * 10 ^ (cs.length + 1) := hstep
      _ = (a + 1) * 10 ^ (c :: cs).length := by simp

theorem digitsToNat_lt (cs : List Char) (h : cs.all Char.isDigit = true) :
    digitsToNat cs < 10 ^ cs.length := by
  have := foldl_digits_lt cs 0 h
  simpa [digitsToNat] using this

theorem digitChar_isDigit (k : ℕ) : (digitChar k).isDigit = true := by
  unfold digitChar
  split <;> decide

theorem digitChar_ne_slash (k : ℕ) : ¬(digitChar k = '/') := by
  unfold digitChar
  split <;> decide

theorem digitVal_digitChar : ∀ k < 10, digitVal (digitChar k) = k := by decide

theorem pad2_all_digits (n : ℕ) : (pad2 n).all Char.isDigit = true := by
  simp [pad2, digitChar_isDigit]

theorem pad4_all_digits (n : ℕ) : (pad4 n).all Char.isDigit = true := by
  simp [pad4, digitChar_isDigit]

theorem slash_not_mem_pad2 (n : ℕ) : '/' ∉ pad2 n := by
  intro h
  simp only [pad2, List.mem_cons, List.not_mem_nil, or_false] at h
  rcases h with h | h
  · exact digitChar_ne_slash _ h.symm
  · exact digitChar_ne_slash _ h.symm

theorem slash_not_mem_pad4 (n : ℕ) : '/' ∉ pad4 n := by
  intro h
  simp only [pad4, List.mem_cons, List.not_mem_nil, or_false] at h
  rcases h with h | h | h | h <;> exact digitChar_ne_slash _ h.symm

theorem digitsToNat_pad2 (n : ℕ) (h : n < 100) : digitsToNat (pad2 n) = n := by
  have h1 : digitVal (digitChar (n / 10 % 10)) = n / 10 % 10 :=
    digitVal_digitChar _ (Nat.mod_lt _ (by norm_num))
  have h2 : digitVal (digitChar (n % 10)) = n % 10 :=
    digitVal_digitChar _ (Nat.mod_lt _ (by norm_num))
  show 10 * (10 * 0 + digitVal (digitChar (n / 10 % 10)))
      + digitVal (digitChar (n % 10)) = n
  rw [h1, h2]
  omega

theorem digitsToNat_pad4 (n : ℕ) (h : n < 10000) : digitsToNat (pad4 n) = n := by
  have h1 : digitVal (digitChar (n / 1000 % 10)) = n / 1000 % 10 :=
    digitVal_digitChar _ (Nat.mod_lt _ (by norm_num))
  have h2 : digitVal (digitChar (n / 100 % 10)) = n / 100 % 10 :=
    digitVal_digitChar _ (Nat.mod_lt _ (by norm_num))
  have h3 : digitVal (digitChar (n / 10 % 10)) = n / 10 % 10 :=
    digitVal_digitChar _ (Nat.mod_lt _ (by norm_num))
  have h4 : digitVal (digitChar (n % 10)) = n % 10 :=
    digitVal_digitChar _ (Nat.mod_lt _ (by norm_num))
  show 10 * (10 * (10 * (10 * 0 + digitVal (digitChar (n / 1000 % 10)))
      + digitVal (digitChar (n / 100 % 10)))
      + digitVal (digitChar (n / 10 % 10)))
      + digitVal (digitChar (n % 10)) = n
  rw [h1, h2, h3, h4]
  omega

theorem splitSlashes_cons (c : Char) (rest : List Char) :
    splitSlashes (c :: rest) =
      if c = '/' then [] :: splitSlashes rest
      else
        match splitSlashes rest with
        | [] => [[c]]
        | h :: t => (c :: h) :: t := rfl

theorem splitSlashes_no_slash (cs : List Char) (h : '/' ∉ cs) :
    splitSlashes cs = [cs] := by
  induction cs with
  | nil => rfl
  | cons c cs ih =>
    have hc : ¬(c = '/') :=
      fun hh => h (hh ▸ List.mem_cons_self c cs)
    have ih' := ih (fun hm => h (List.mem_cons_of_mem c hm))
    unfold splitSlashes
    rw [if_neg hc, ih']

theorem splitSlashes_append (xs ys : List Char) (h : '/' ∉ xs) :
    splitSlashes (xs ++ '/' :: ys) = xs :: splitSlashes ys := by
  induction xs with
  | nil =>
    show splitSlashes ('/' :: ys) = [] :: splitSlashes ys
    rw [splitSlashes_cons, if_pos rfl]
  | cons c cs ih =>
    have hc : ¬(c = '/') :=
      fun hh => h (hh ▸ List.mem_cons_self c cs)
    have ih' := ih (fun hm => h (List.mem_cons_of_mem c hm))
    show splitSlashes (c :: (cs ++ '/' :: ys)) = (c :: cs) :: splitSlashes ys
    rw [splitSlashes_cons, if_neg hc, ih']

theorem daysInMonth_le (m y : ℕ) : daysInMonth m y ≤ 31 := by
  unfold daysInMonth
  split
  · split <;> omega
  · split <;> omega

/-- Every date produced by the parser is a real calendar date with a
four-digit year. -/
theorem parseDate_valid (s : String) (d : PDate) (h : parseDate s = some d) :
    validDMY d.day d.month d.year = true ∧ d.year < 10000 := by
  unfold parseDate at h
  split at h
  case h_2 => cases h
  case h_1 a b c heq =>
    split at h
    case isFalse => cases h
    case isTrue hg =>
      simp only [Bool.and_eq_true] at hg
      obtain ⟨⟨⟨⟨⟨⟨⟨ha, hb⟩, hcall⟩, hae⟩, hal⟩, hbe⟩, hbl⟩, hcl⟩ := hg
      have hy : digitsToNat c < 10000 := by
        have hlt := digitsToNat_lt c hcall
        rwa [of_decide_eq_true hcl] at hlt
      split at h
      case isTrue hv =>
        injection h with h
        subst h
        exact ⟨hv, hy⟩
      case isFalse =>
        split at h
        case isTrue hv =>
          injection h with h
          subst h
          exact ⟨hv, hy⟩
        case isFalse => cases h

/-- Re-parsing the `%d/%m/%Y` rendering of a valid date recovers the date:
the rendered day and month sit in the day-first positions and form a real
calendar date, so the day-first reading is taken as-is. -/
theorem parseDate_formatDate (d : PDate)
    (hv : validDMY d.day d.month d.year = true) (hy : d.year < 10000) :
    parseDate (formatDate d) = some d := by
  have hday : d.day < 100 := by
    have h1 : d.day ≤ daysInMonth d.month d.year := by
      unfold validDMY at hv
      simp only [Bool.and_eq_true, decide_eq_true_eq] at hv
      exact hv.2
    have := daysInMonth_le d.month d.year
    omega
  have hmonth : d.month < 100 := by
    unfold validDMY at hv
    simp only [Bool.and_eq_true, decide_eq_true_eq] at hv
    omega
  have hdata : (formatDate d).data
      = pad2 d.day ++ '/' :: (pad2 d.month ++ '/' :: pad4 d.year) := rfl
  have hstep : parseDate (formatDate d) =
      if (pad2 d.day).all Char.isDigit && (pad2 d.month).all Char.isDigit &&
         (pad4 d.year).all Char.isDigit &&
         !(pad2 d.day).isEmpty && (pad2 d.day).length ≤ 2 &&
         !(pad2 d.month).isEmpty && (pad2 d.month).length ≤ 2 &&
         (pad4 d.year).length = 4 then
        if validDMY (digitsToNat (pad2 d.day)) (digitsToNat (pad2 d.month))
            (digitsToNat (pad4 d.year)) then
          some ⟨digitsToNat (pad2 d.day), digitsToNat (pad2 d.month),
            digitsToNat (pad4 d.year)⟩
        else if validDMY (digitsToNat (pad2 d.month)) (digitsToNat (pad2 d.day))
            (digitsToNat (pad4 d.year)) then
          some ⟨digitsToNat (pad2 d.month), digitsToNat (pad2 d.day),
            digitsToNat (pad4 d.year)⟩
        else none
      else none := by
    unfold parseDate
    rw [hdata, splitSlashes_append _ _ (slash_not_mem_pad2 d.day),
      splitSlashes_append _ _ (slash_not_mem_pad2 d.month),
      splitSlashes_no_slash (pad4 d.year) (slash_not_mem_pad4 d.year)]
  have hguard : ((pad2 d.day).all Char.isDigit &&
      (pad2 d.month).all Char.isDigit && (pad4 d.year).all Char.isDigit &&
      !(pad2 d.day).isEmpty && decide ((pad2 d.day).length ≤ 2) &&
      !(pad2 d.month).isEmpty && decide ((pad2 d.month).length ≤ 2) &&
      decide ((pad4 d.year).length = 4)) = true := by
    simp [pad2, pad4, digitChar_isDigit]
  rw [hstep, if_pos hguard, digitsToNat_pad2 d.day hday,
    digitsToNat_pad2 d.month hmonth, digitsToNat_pad4 d.year hy, if_pos hv]

/-- C6: on the Date / Value Date columns, a cell the parser accepts is
re-rendered as zero-padded `%d/%m/%Y` text whose re-parse (same day-first
parser) yields the same calendar date; a cell the parser rejects becomes the
missing marker, never a default date; a missing cell stays missing. -/
theorem claim6_date_roundtrip (s : String) :
    (∀ d : PDate, parseDate s = some d →
      cleanDateCell (some s) = some (formatDate d) ∧
      parseDate (formatDate d) = some d) ∧
    (parseDate s = none → cleanDateCell (some s) = none) ∧
    cleanDateCell none = none := by
  refine ⟨?_, ?_, rfl⟩
  · intro d hd
    refine ⟨?_, ?_⟩
    · show (parseDate s).map formatDate = some (formatDate d)
      rw [hd]
      rfl
    · obtain ⟨hv, hy⟩ := parseDate_valid s d hd
      exact parseDate_formatDate d hv hy
  · intro h
    show (parseDate s).map formatDate = none
    rw [h]
    rfl

/-- Witness for C6: the ambiguous numeric date `5/4/2024` is read
day-first, rendered `05/04/2024`, and its re-parse is the same date;
an unparseable cell stays missing. -/
theorem claim6_witness :
    cleanDateCell (some "5/4/2024") = some "05/04/2024" ∧
    parseDate "05/04/2024" = some ⟨5, 4, 2024⟩ ∧
    cleanDateCell (some "not a date") = none := by
  have h := (claim6_date_roundtrip "5/4/2024").1 ⟨5, 4, 2024⟩ (by decide)
  have hf : formatDate ⟨5, 4, 2024⟩ = "05/04/2024" := by decide
  have h2 := (claim6_date_roundtrip "not a date").2.1 (by decide)
  rw [hf] at h
  exact ⟨h.1, h.2, h2⟩

end HDFC
